import Mathlib

/-!
Shallow embedding of the secret-sync-controller reconciliation core
(`src/secret_sync/handlers.py`) together with the object store's
strategic-merge-patch semantics (`tests/fake_kubernetes.py`).

Python dicts are modelled as association lists (in insertion order, no
duplicate keys in any dict a Python program can build); JSON-like values as
the inductive `Jv`; exceptions as `Except PyErr`.  Log output is modelled as
a list of `LogEntry`, one constructor per format string occurring in the
source.  Each definition mirrors one Python function and is named after it.
-/

set_option maxHeartbeats 1000000

/-- Python exceptions relevant to the handlers: HTTP errors from the store
(`pykube.exceptions.HTTPError` with its status code), and the builtin
errors an ill-shaped object can provoke (`TypeError`/`AttributeError`
collapsed into `typeError`, `KeyError`, `ValueError`). -/
inductive PyErr where
  | http (code : Nat)
  | typeError
  | keyError
  | valueError
deriving DecidableEq

/-- JSON-like values stored in secrets: strings and string-keyed dicts. -/
inductive Jv where
  | str (s : String)
  | dict (d : List (String × Jv))

/-- A Python dict, in insertion order. -/
abbrev Obj := List (String × Jv)

/-- Whether a JSON value is a scalar string (`not isinstance(v, dict)`). -/
def Jv.isStr : Jv → Bool
  | .str _ => true
  | .dict _ => false

/-- Association-list lookup (Python `d[k]` / `k in d`). -/
def alLookup [DecidableEq κ] : List (κ × α) → κ → Option α
  | [], _ => none
  | (k, v) :: rest, key => if k = key then some v else alLookup rest key

/-- Association-list overwrite-or-append (Python `d[k] = v`): an existing
key keeps its position, a fresh key is appended at the end. -/
def alInsert [DecidableEq κ] : List (κ × α) → κ → α → List (κ × α)
  | [], key, val => [(key, val)]
  | (k, v) :: rest, key, val =>
    if k = key then (k, val) :: rest else (k, v) :: alInsert rest key val

/-- `obj[k]` where the value is used as a string. -/
def getStr (obj : Obj) (k : String) : Except PyErr String :=
  match alLookup obj k with
  | none => .error .keyError
  | some (Jv.str s) => .ok s
  | some (Jv.dict _) => .error .typeError

/-- `obj[k]` where the value is used as a dict. -/
def getDict (obj : Obj) (k : String) : Except PyErr Obj :=
  match alLookup obj k with
  | none => .error .keyError
  | some (Jv.str _) => .error .typeError
  | some (Jv.dict d) => .ok d

/-- `ANN_SYNC_TO = "secret-sync.praekelt.org/sync-to"` from handlers.py. -/
def ANN_SYNC_TO : String := "secret-sync.praekelt.org/sync-to"

/-- `ANN_WATCH = "secret-sync.praekelt.org/watch"` from handlers.py. -/
def ANN_WATCH : String := "secret-sync.praekelt.org/watch"

/-- `class SecretRef`: an immutable (namespace, name) reference. -/
structure SecretRef where
  ns : String
  name : String
deriving DecidableEq

/-- `SecretRef.__str__`: `f"{self.namespace}/{self.name}"`. -/
def SecretRef.toStr (r : SecretRef) : String := r.ns ++ "/" ++ r.name

/-- One log record per Python logging call site:
`warnNotFound r`       = `logger.warning(f"Secret not found: {r}")`,
`infoSynced o`         = `logger.info(f"synced secret: {o}")`,
`warnSourceDeleted r`  = `logger.warning(f"Source secret deleted: {r}")`,
`warnWatchedDeleted r` = `logger.warning(f"Watched secret deleted: {r}")`.
The first and the last two are at warning level, `infoSynced` at info. -/
inductive LogEntry where
  | warnNotFound (r : SecretRef)
  | infoSynced (o : Obj)
  | warnSourceDeleted (r : SecretRef)
  | warnWatchedDeleted (r : SecretRef)

abbrev Log := List LogEntry

/-- Full split of a character list at a separator character; mirrors Python
`str.split(sep)` for a one-character separator (`"".split(sep) == [""]`). -/
def splitOnChar (c : Char) : List Char → List (List Char)
  | [] => [[]]
  | x :: xs =>
    match splitOnChar c xs with
    | [] => [[]]
    | y :: ys => if x = c then [] :: y :: ys else (x :: y) :: ys

/-- `sep.join(parts)` for a one-character separator. -/
def joinWith (c : Char) : List (List Char) → List Char
  | [] => []
  | [x] => x
  | x :: xs => x ++ c :: joinWith c xs

/-- Python `s.split(sep, 2)` (at most two splits, remainder kept intact). -/
def pySplitMax2 (c : Char) (s : List Char) : List (List Char) :=
  match splitOnChar c s with
  | p0 :: p1 :: p2 :: rest => [p0, p1, joinWith c (p2 :: rest)]
  | parts => parts

/-- Python `s.split(sep)` on strings, one-character separator. -/
def pySplit (c : Char) (s : String) : List String :=
  (splitOnChar c s.toList).map List.asString

/-- `SecretRef._find_destination(ns, name)`:
`if "/" in name: ns, name = name.split("/", 2)`.  The two-target unpacking
raises `ValueError` unless the split produced exactly two parts, i.e.
unless the token contains exactly one `/`. -/
def _find_destination (ns nm : String) : Except PyErr SecretRef :=
  if nm.toList.contains '/' then
    match pySplitMax2 '/' nm.toList with
    | [a, b] => .ok ⟨a.asString, b.asString⟩
    | _ => .error .valueError
  else .ok ⟨ns, nm⟩

/-- `SecretRef.from_meta(meta)`: build a reference from the object's own
`meta["namespace"]` / `meta["name"]`. -/
def from_meta (meta : Obj) : Except PyErr SecretRef := do
  let ns ← getStr meta "namespace"
  let nm ← getStr meta "name"
  .ok ⟨ns, nm⟩

/-- A Python list comprehension over a fallible body: elements in order,
the first raise propagating. -/
def mapE (f : α → Except PyErr β) : List α → Except PyErr (List β)
  | [] => .ok []
  | x :: xs => do
    let y ← f x
    let ys ← mapE f xs
    .ok (y :: ys)

/-- `SecretRef.find_destinations(meta)`: split the sync-to annotation value
on `,` and resolve each token in declared order (no deduplication). -/
def find_destinations (meta : Obj) : Except PyErr (List SecretRef) := do
  let ns ← getStr meta "namespace"
  let anns ← getDict meta "annotations"
  let v ← getStr anns ANN_SYNC_TO
  mapE ( _find_destination ns) (pySplit ',' v)

mutual
/-- The effect of one iteration of the `strategic_merge_dict` loop on the
value at key `k`: given the existing value `w = obj.get(k)` and the patch
value `v`, Python recurses (`strategic_merge_dict(obj[k], v)`) when `k` is
present and `v` is a dict — raising (`none`) when the existing value is not
itself a dict — and otherwise assigns `obj[k] = v`. -/
def smdVal : Option Jv → Jv → Option Jv
  | w, Jv.dict pv =>
    match w with
    | some (Jv.dict sub) => Option.map Jv.dict (smd sub pv)
    | some (Jv.str _) => none
    | none => some (Jv.dict pv)
  | _, Jv.str s => some (Jv.str s)

/-- `strategic_merge_dict(obj, patch)` from tests/fake_kubernetes.py:
`for k, v in patch.items(): if k in obj and isinstance(v, dict):
strategic_merge_dict(obj[k], v) else: obj[k] = v`, iterating the patch
items in order and updating `obj` in place. -/
def smd : Obj → Obj → Option Obj
  | obj, [] => some obj
  | obj, (k, v) :: rest =>
    match smdVal (alLookup obj k) v with
    | none => none
    | some w => smd (alInsert obj k w) rest
end

/-- The object store: secrets indexed by reference
(`FakeKubernetes.secrets`, keyed by `(namespace, name)`). -/
abbrev Store := List (SecretRef × Obj)

/-- `FakeKubernetes._get_obj`: 404 when absent, else the stored object. -/
def storeGet (st : Store) (r : SecretRef) : Except PyErr Obj :=
  match alLookup st r with
  | none => .error (.http 404)
  | some obj => .ok obj

/-- `FakeKubernetes._patch_obj`: 404 when absent, else apply the strategic
merge in place and return the merged object. -/
def storePatch (st : Store) (r : SecretRef) (patch : Obj) :
    Except PyErr (Obj × Store) :=
  match alLookup st r with
  | none => .error (.http 404)
  | some obj =>
    match smd obj patch with
    | none => .error .typeError
    | some m => .ok (m, alInsert st r m)

/-- `add_annotation(obj, annotation, value)`:
`obj.setdefault("metadata", {}).setdefault("annotations", {})[annotation] = value`.
Calling `setdefault` on a non-dict value raises; modelled as `typeError`. -/
def add_annotation (obj : Obj) (ann value : String) : Except PyErr Obj :=
  match alLookup obj "metadata" with
  | none =>
    .ok (alInsert obj "metadata"
      (Jv.dict [("annotations", Jv.dict [(ann, Jv.str value)])]))
  | some (Jv.str _) => .error .typeError
  | some (Jv.dict md) =>
    match alLookup md "annotations" with
    | none =>
      .ok (alInsert obj "metadata"
        (Jv.dict (alInsert md "annotations" (Jv.dict [(ann, Jv.str value)]))))
    | some (Jv.str _) => .error .typeError
    | some (Jv.dict anns) =>
      .ok (alInsert obj "metadata"
        (Jv.dict (alInsert md "annotations"
          (Jv.dict (alInsert anns ann (Jv.str value))))))

/-- `SecretRef._as_pykube().obj` before any server round-trip:
`{"metadata": {"name": ..., "namespace": ...}}`. -/
def stubObj (r : SecretRef) : Obj :=
  [("metadata", Jv.dict [("name", Jv.str r.name), ("namespace", Jv.str r.ns)])]

/-- `SecretRef._existing_pykube`: run a store call; catch an HTTPError only
when its code is 404, logging `Secret not found: {ref}` and continuing with
the stub value; re-raise every other error. -/
def existingWrap (r : SecretRef) (log : Log) (res : Except PyErr α)
    (stub : α) : Except PyErr (α × Log) :=
  match res with
  | .ok a => .ok (a, log)
  | .error (.http c) =>
    if c = 404 then .ok (stub, log ++ [.warnNotFound r])
    else .error (.http c)
  | .error e => .error e

/-- `SecretRef.get(logger)`: reload from the store; `None` when missing. -/
def SecretRef.get (r : SecretRef) (st : Store) (log : Log) :
    Except PyErr (Option Obj × Log) :=
  existingWrap r log (Except.map some (storeGet st r)) none

/-- The store round-trip inside `SecretRef.patch`, after the annotation has
been stamped onto the patch body. -/
def patchCore (r : SecretRef) (po : Obj) (st : Store) (log : Log) :
    Except PyErr ((Obj × Store) × Log) :=
  existingWrap r log (storePatch st r po) (stubObj r, st)

/-- `SecretRef.patch(logger, patch_obj)`: stamp the watch annotation onto
the patch body, then send the merge patch; on 404 the warning is logged and
the local stub object is returned unchanged. -/
def SecretRef.patch (r : SecretRef) (pobj : Obj) (st : Store) (log : Log) :
    Except PyErr ((Obj × Store) × Log) := do
  let po ← add_annotation pobj ANN_WATCH "true"
  patchCore r po st log

/-- Body of the `for dst_ref in dst_refs` loop in `copy_secret_data`:
`dst_secret = dst_ref.patch(logger, {"data": {**src_secret["data"]}})`
followed by `logger.info(f"synced secret: {dst_secret}")`. -/
def syncOne (src : Obj) (d : SecretRef) (st : Store) (log : Log) :
    Except PyErr (Store × Log) := do
  let data ← getDict src "data"
  let ((obj, st'), log') ← SecretRef.patch d [("data", Jv.dict data)] st log
  .ok (st', log' ++ [.infoSynced obj])

/-- The destination loop of `copy_secret_data`, in declared order. -/
def sync_dests (src : Obj) : List SecretRef → Store → Log →
    Except PyErr (Store × Log)
  | [], st, log => .ok (st, log)
  | d :: rest, st, log => do
    let (st', log') ← syncOne src d st log
    sync_dests src rest st' log'

/-- `copy_secret_data(src_secret, logger)`: resolve the destinations from
`src_secret["metadata"]` and sync each one. -/
def copy_secret_data (src : Obj) (st : Store) (log : Log) :
    Except PyErr (Store × Log) := do
  let meta ← getDict src "metadata"
  let refs ← find_destinations meta
  sync_dests src refs st log

/-- `_destination_map`: destination reference → set of source references.
The Python `set` is modelled as a duplicate-free list in insertion order. -/
abbrev DMap := List (SecretRef × List SecretRef)

/-- Python `set.add`. -/
def setAdd (s : List SecretRef) (x : SecretRef) : List SecretRef :=
  if x ∈ s then s else s ++ [x]

/-- `_add_src_dst_mapping(src_ref, dst_ref)`:
`_destination_map.setdefault(dst_ref, set()).add(src_ref)`. -/
def _add_src_dst_mapping (m : DMap) (src dst : SecretRef) : DMap :=
  match alLookup m dst with
  | some s => alInsert m dst (setAdd s src)
  | none => m ++ [(dst, setAdd [] src)]

/-- `_destination_map.get(dst_ref, set())`. -/
def dmapGet (m : DMap) (d : SecretRef) : List SecretRef :=
  (alLookup m d).getD []

/-- The process-wide state a handler invocation can read or write: the
object store, the destination map, and the log stream. -/
structure SysState where
  secrets : Store
  destination_map : DMap
  log : Log

/-- `source_secret_event(body, meta, event, logger)`.  The `event` argument
is the event's `"type"` field (`None` for initial listing).  A `DELETED`
event only logs; otherwise every currently declared destination is recorded
in the destination map and `copy_secret_data(body)` runs. -/
def source_secret_event (body meta : Obj) (event : Option String)
    (σ : SysState) : Except PyErr SysState := do
  let src_ref ← from_meta meta
  if event = some "DELETED" then
    .ok { σ with log := σ.log ++ [.warnSourceDeleted src_ref] }
  else do
    let refs ← find_destinations meta
    let dmap := refs.foldl (fun m d => _add_src_dst_mapping m src_ref d)
      σ.destination_map
    let (st', log') ← copy_secret_data body σ.secrets σ.log
    .ok ⟨st', dmap, log'⟩

/-- The `for src_ref in _destination_map.get(dst_ref, set())` loop of
`watched_secret_event`: fetch each registered source live and copy from it
when it exists. -/
def syncFromSources : List SecretRef → SysState → Except PyErr SysState
  | [], σ => .ok σ
  | s :: rest, σ => do
    let (srcOpt, lg) ← SecretRef.get s σ.secrets σ.log
    match srcOpt with
    | some src => do
      let (st', lg') ← copy_secret_data src σ.secrets lg
      syncFromSources rest ⟨st', σ.destination_map, lg'⟩
    | none => syncFromSources rest { σ with log := lg }

/-- `watched_secret_event(meta, event, logger)`.  A `DELETED` event only
logs; otherwise every source registered for this destination is fetched
live and synced. -/
def watched_secret_event (meta : Obj) (event : Option String)
    (σ : SysState) : Except PyErr SysState := do
  let dst_ref ← from_meta meta
  if event = some "DELETED" then
    .ok { σ with log := σ.log ++ [.warnWatchedDeleted dst_ref] }
  else
    syncFromSources (dmapGet σ.destination_map dst_ref) σ

/-- The exact patch body `copy_secret_data` submits for source data `data`:
the whole `data` mapping plus the watch marker set to the literal string
`"true"`. -/
def fullPatch (data : Obj) : Obj :=
  [("data", Jv.dict data),
   ("metadata", Jv.dict [("annotations", Jv.dict [(ANN_WATCH, Jv.str "true")])])]

/-- Modelled from the amended claim C2's words (not from the source): a
token without `/` resolves in the source's own namespace; a token with
exactly one `/` splits at it into namespace and name; a token with two or
more `/` raises a `ValueError`. -/
def resolveTokenSpec (ns tok : String) : Except PyErr SecretRef :=
  if tok.toList.count '/' = 0 then .ok ⟨ns, tok⟩
  else if tok.toList.count '/' = 1 then
    .ok ⟨(tok.toList.takeWhile (fun c => c != '/')).asString,
         ((tok.toList.dropWhile (fun c => c != '/')).drop 1).asString⟩
  else .error .valueError

/-- A JSON value all of whose dicts have pairwise distinct keys — the shape
of every value built from actual Python dicts. -/
inductive NodupRec : Jv → Prop
  | str (s : String) : NodupRec (Jv.str s)
  | dict (l : Obj) : (l.map Prod.fst).Nodup →
      (∀ kv ∈ l, NodupRec kv.2) → NodupRec (Jv.dict l)

mutual
/-- An existing value already reflects a patch value: equal for scalars;
for dicts, every patch entry is present and recursively reflected. -/
inductive MatchVal : Jv → Jv → Prop
  | str (s : String) : MatchVal (Jv.str s) (Jv.str s)
  | dict (sub pv : Obj) :
      (∀ kv ∈ pv, OptMatch (alLookup sub kv.1) kv.2) →
      MatchVal (Jv.dict sub) (Jv.dict pv)

/-- `OptMatch w v`: the optional existing value `w` is present and already
reflects the patch value `v`. -/
inductive OptMatch : Option Jv → Jv → Prop
  | mk (u v : Jv) : MatchVal u v → OptMatch (some u) v
end

/-! ### Association-list lemmas -/

theorem alLookup_insert_self [DecidableEq κ] (l : List (κ × α)) (k : κ)
    (v : α) : alLookup (alInsert l k v) k = some v := by
  induction l with
  | nil => simp [alInsert, alLookup]
  | cons hd tl ih =>
    by_cases h : hd.1 = k <;> simp [alInsert, alLookup, h, ih]

theorem alLookup_insert_ne [DecidableEq κ] (l : List (κ × α)) (k k' : κ)
    (v : α) (h : k' ≠ k) : alLookup (alInsert l k v) k' = alLookup l k' := by
  induction l with
  | nil => simp [alInsert, alLookup, Ne.symm h]
  | cons hd tl ih =>
    obtain ⟨a, b⟩ := hd
    by_cases hh : a = k
    · subst hh
      simp [alInsert, alLookup, Ne.symm h]
    · simp only [alInsert, hh, if_false, alLookup]
      rw [ih]

theorem alInsert_lookup_self [DecidableEq κ] (l : List (κ × α)) (k : κ)
    (v : α) (h : alLookup l k = some v) : alInsert l k v = l := by
  induction l with
  | nil => simp [alLookup] at h
  | cons hd tl ih =>
    obtain ⟨a, b⟩ := hd
    by_cases hh : a = k
    · subst hh
      simp [alLookup] at h
      simp [alInsert, h]
    · simp only [alLookup, hh, if_false] at h
      simp [alInsert, hh, ih h]

theorem alLookup_isSome_insert [DecidableEq κ] (l : List (κ × α)) (k k' : κ)
    (v : α) : (alLookup (alInsert l k v) k').isSome
      ↔ (alLookup l k').isSome ∨ k' = k := by
  by_cases h : k' = k
  · subst h; simp [alLookup_insert_self]
  · simp [alLookup_insert_ne l k k' v h, h]

theorem alLookup_eq_none_of_not_mem [DecidableEq κ] (l : List (κ × α))
    (k : κ) (h : k ∉ l.map Prod.fst) : alLookup l k = none := by
  induction l with
  | nil => rfl
  | cons hd tl ih =>
    simp only [List.map_cons, List.mem_cons] at h
    push_neg at h
    simp [alLookup, Ne.symm h.1, ih h.2]

theorem alLookup_of_mem_nodup [DecidableEq κ] (l : List (κ × α))
    (kv : κ × α) (hm : kv ∈ l) (hn : (l.map Prod.fst).Nodup) :
    alLookup l kv.1 = some kv.2 := by
  induction l with
  | nil => simp at hm
  | cons hd tl ih =>
    simp only [List.map_cons, List.nodup_cons] at hn
    rcases List.mem_cons.1 hm with h | h
    · subst h; simp [alLookup]
    · have : hd.1 ≠ kv.1 := by
        intro he
        exact hn.1 (he ▸ List.mem_map_of_mem Prod.fst h)
      simp [alLookup, this, ih h hn.2]

/-! ### Unfolding lemmas for the strategic merge -/

theorem smd_nil (obj : Obj) : smd obj [] = some obj := rfl

theorem smd_cons_str (obj : Obj) (k s : String) (rest : Obj) :
    smd obj ((k, Jv.str s) :: rest) = smd (alInsert obj k (Jv.str s)) rest :=
  rfl

theorem smd_cons_dict_absent (obj : Obj) (k : String) (pv rest : Obj)
    (h : alLookup obj k = none) :
    smd obj ((k, Jv.dict pv) :: rest)
      = smd (alInsert obj k (Jv.dict pv)) rest := by
  simp only [smd, smdVal, h]

theorem smd_cons_dict_scalar (obj : Obj) (k s : String) (pv rest : Obj)
    (h : alLookup obj k = some (Jv.str s)) :
    smd obj ((k, Jv.dict pv) :: rest) = none := by
  simp only [smd, smdVal, h]

theorem smd_cons_dict_ok (obj : Obj) (k : String) (sub pv mg rest : Obj)
    (h1 : alLookup obj k = some (Jv.dict sub)) (h2 : smd sub pv = some mg) :
    smd obj ((k, Jv.dict pv) :: rest)
      = smd (alInsert obj k (Jv.dict mg)) rest := by
  simp only [smd, smdVal, h1, h2]
  rfl

theorem smd_cons_dict_err (obj : Obj) (k : String) (sub pv rest : Obj)
    (h1 : alLookup obj k = some (Jv.dict sub)) (h2 : smd sub pv = none) :
    smd obj ((k, Jv.dict pv) :: rest) = none := by
  simp only [smd, smdVal, h1, h2]
  rfl

/-! ### The patch body the engine submits (claim C6) -/

theorem add_ann_data (data : Obj) :
    add_annotation [("data", Jv.dict data)] ANN_WATCH "true"
      = .ok (fullPatch data) := rfl

/-- C6: every patch the engine issues to a destination carries the source's
entire `data` mapping together with the watched-marker annotation set to the
literal string `"true"`, and the engine never writes any other value for
that annotation: the only patch construction site (`copy_secret_data`'s
loop body feeding `SecretRef.patch`) always hands the store exactly
`fullPatch data`, whose annotations dict is `[(ANN_WATCH, "true")]`. -/
theorem claim_C6 :
    (∀ data : Obj, add_annotation [("data", Jv.dict data)] ANN_WATCH "true"
      = .ok (fullPatch data)) ∧
    (∀ (r : SecretRef) (data : Obj) (st : Store) (log : Log),
      SecretRef.patch r [("data", Jv.dict data)] st log
        = patchCore r (fullPatch data) st log) ∧
    (∀ (src data : Obj) (d : SecretRef) (st : Store) (log : Log),
      getDict src "data" = .ok data →
      syncOne src d st log = (patchCore d (fullPatch data) st log).bind
        (fun x => .ok (x.1.2, x.2 ++ [.infoSynced x.1.1]))) ∧
    (∀ data : Obj, alLookup (fullPatch data) "metadata"
      = some (Jv.dict [("annotations",
          Jv.dict [(ANN_WATCH, Jv.str "true")])])) := by
  refine ⟨fun _ => rfl, fun _ _ _ _ => rfl, ?_, fun _ => rfl⟩
  intro src data d st log hd
  unfold syncOne
  rw [hd]
  rcases h : existingWrap d log (storePatch st d (fullPatch data))
      (stubObj d, st) with e | ⟨⟨obj, st'⟩, log'⟩ <;>
    · show Except.bind (existingWrap d log (storePatch st d (fullPatch data))
          (stubObj d, st)) _ = Except.bind (existingWrap d log
          (storePatch st d (fullPatch data)) (stubObj d, st)) _
      rw [h]

theorem claim_C6_witness :
    getDict [("data", Jv.dict [])] "data" = .ok [] ∧
    syncOne [("data", Jv.dict [])] ⟨"n", "d"⟩ [] []
      = (patchCore ⟨"n", "d"⟩ (fullPatch []) [] []).bind
          (fun x => .ok (x.1.2, x.2 ++ [.infoSynced x.1.1])) :=
  ⟨rfl, claim_C6.2.2.1 [("data", Jv.dict [])] [] ⟨"n", "d"⟩ [] [] rfl⟩

/-! ### Deleted events only log (claim C7) -/

/-- C7: a `DELETED` source event only logs `Source secret deleted: <ref>`
and leaves the store and the destination map untouched; a `DELETED`
destination event only logs `Watched secret deleted: <ref>` and likewise
changes nothing else. -/
theorem claim_C7 (body meta : Obj) (σ : SysState) (r : SecretRef)
    (h : from_meta meta = .ok r) :
    source_secret_event body meta (some "DELETED") σ
      = .ok { σ with log := σ.log ++ [.warnSourceDeleted r] } ∧
    watched_secret_event meta (some "DELETED") σ
      = .ok { σ with log := σ.log ++ [.warnWatchedDeleted r] } := by
  constructor
  · unfold source_secret_event
    rw [h]
    rfl
  · unfold watched_secret_event
    rw [h]
    rfl

theorem claim_C7_witness :
    from_meta [("namespace", Jv.str "ns"), ("name", Jv.str "src")]
      = .ok ⟨"ns", "src"⟩ ∧
    source_secret_event [] [("namespace", Jv.str "ns"), ("name", Jv.str "src")]
      (some "DELETED") ⟨[], [], []⟩
      = .ok ⟨[], [], [.warnSourceDeleted ⟨"ns", "src"⟩]⟩ ∧
    watched_secret_event [("namespace", Jv.str "ns"), ("name", Jv.str "src")]
      (some "DELETED") ⟨[], [], []⟩
      = .ok ⟨[], [], [.warnWatchedDeleted ⟨"ns", "src"⟩]⟩ := by
  have h := claim_C7 [] [("namespace", Jv.str "ns"), ("name", Jv.str "src")]
    ⟨[], [], []⟩ ⟨"ns", "src"⟩ rfl
  exact ⟨rfl, h.1, h.2⟩

/-! ### Non-404 store errors propagate (claim C8) -/

/-- C8: the error filter wrapped around every store get/patch call
(`SecretRef._existing_pykube`) swallows only the 404 HTTP error, turning it
into a single `Secret not found` warning; an HTTP error with any other code
— and any non-HTTP error — propagates to the caller.  `SecretRef.get` and
the patch round-trip are literally this wrapper applied to the store call. -/
theorem claim_C8 :
    (∀ (α : Type) (r : SecretRef) (log : Log) (stub : α) (c : Nat),
      c ≠ 404 →
      existingWrap r log (.error (.http c)) stub = .error (.http c)) ∧
    (∀ (α : Type) (r : SecretRef) (log : Log) (stub : α),
      existingWrap r log (.error (.http 404)) stub
        = .ok (stub, log ++ [.warnNotFound r])) ∧
    (∀ (α : Type) (r : SecretRef) (log : Log) (stub : α),
      existingWrap r log (.error .typeError) stub = .error .typeError) ∧
    (∀ (r : SecretRef) (st : Store) (log : Log),
      SecretRef.get r st log
        = existingWrap r log (Except.map some (storeGet st r)) none) ∧
    (∀ (r : SecretRef) (po : Obj) (st : Store) (log : Log),
      patchCore r po st log
        = existingWrap r log (storePatch st r po) (stubObj r, st)) := by
  refine ⟨?_, ?_, ?_, fun _ _ _ => rfl, fun _ _ _ _ => rfl⟩
  · intro α r log stub c hc
    simp [existingWrap, hc]
  · intro α r log stub
    rfl
  · intro α r log stub
    rfl

theorem claim_C8_witness :
    (500 ≠ 404) ∧
    existingWrap ⟨"ns", "x"⟩ [] (.error (.http 500)) ([] : Obj)
      = .error (.http 500) :=
  ⟨by decide, claim_C8.1 Obj ⟨"ns", "x"⟩ [] [] 500 (by decide)⟩

/-! ### Destination events re-sync from the live source (claim C5) -/

/-- C5: a non-deleted destination event whose destination has exactly one
registered source, present in the store, fetches that source live and runs
`copy_secret_data` on the fetched object — the store's *current* object,
not a snapshot — which re-syncs all of the source's currently declared
destinations.  The destination map is left unchanged. -/
theorem claim_C5 (meta : Obj) (ev : Option String) (σ : SysState)
    (dref sref : SecretRef) (srcObj : Obj)
    (h1 : from_meta meta = .ok dref)
    (h2 : ev ≠ some "DELETED")
    (h3 : dmapGet σ.destination_map dref = [sref])
    (h4 : storeGet σ.secrets sref = .ok srcObj) :
    watched_secret_event meta ev σ
      = (copy_secret_data srcObj σ.secrets σ.log).map
          (fun p => ⟨p.1, σ.destination_map, p.2⟩) := by
  unfold watched_secret_event
  rw [h1]
  show (if ev = some "DELETED" then _ else _) = _
  rw [if_neg h2, h3]
  show (do
    let (srcOpt, lg) ← SecretRef.get sref σ.secrets σ.log
    match srcOpt with
    | some src => do
      let (st', lg') ← copy_secret_data src σ.secrets lg
      syncFromSources [] ⟨st', σ.destination_map, lg'⟩
    | none => syncFromSources [] { σ with log := lg }) = _
  rw [show SecretRef.get sref σ.secrets σ.log = .ok (some srcObj, σ.log) by
    simp [SecretRef.get, h4, existingWrap, Except.map]]
  rcases hc : copy_secret_data srcObj σ.secrets σ.log with e | ⟨st', lg'⟩ <;>
    · show Except.bind (copy_secret_data srcObj σ.secrets σ.log) _ = _
      rw [hc]
      rfl

/-! ### Token resolution (claims C2 and C10) -/

theorem splitOnChar_count_zero (c : Char) (s : List Char)
    (h : s.count c = 0) : splitOnChar c s = [s] := by
  induction s with
  | nil => rfl
  | cons x xs ih =>
    have hx : x ≠ c := by
      rintro rfl
      simp [List.count_cons] at h
    have hxs : xs.count c = 0 := by
      simpa [List.count_cons, hx] using h
    simp [splitOnChar, ih hxs, hx]

theorem splitOnChar_count_one (c : Char) (s : List Char)
    (h : s.count c = 1) :
    splitOnChar c s = [s.takeWhile (fun x => x != c),
      (s.dropWhile (fun x => x != c)).drop 1] := by
  induction s with
  | nil => simp at h
  | cons x xs ih =>
    by_cases hx : x = c
    · subst hx
      have hxs : xs.count x = 0 := by
        simp [List.count_cons] at h
        omega
      simp [splitOnChar, splitOnChar_count_zero x xs hxs,
        List.takeWhile_cons, List.dropWhile_cons]
    · have hxs : xs.count c = 1 := by
        simpa [List.count_cons, hx] using h
      simp [splitOnChar, ih hxs, hx, List.takeWhile_cons,
        List.dropWhile_cons]

theorem length_splitOnChar (c : Char) (s : List Char) :
    (splitOnChar c s).length = s.count c + 1 := by
  induction s with
  | nil => simp [splitOnChar]
  | cons x xs ih =>
    rcases hsp : splitOnChar c xs with _ | ⟨y, ys⟩
    · rw [hsp] at ih
      simp at ih
    · rw [hsp] at ih
      by_cases hx : x = c
      · subst hx
        simp only [splitOnChar, hsp, if_pos rfl]
        simp only [List.length_cons] at ih ⊢
        simp [List.count_cons]
        omega
      · simp only [splitOnChar, hsp, hx, if_false, ite_false]
        simp only [List.length_cons] at ih ⊢
        simp [List.count_cons, hx]
        omega

/-- The source's single-token resolution agrees with the amended rule: own
namespace for no `/`, split at the unique `/` for exactly one, `ValueError`
for two or more. -/
theorem _find_destination_eq_spec (ns tok : String) :
    _find_destination ns tok = resolveTokenSpec ns tok := by
  unfold _find_destination resolveTokenSpec
  rcases hc : tok.toList.count '/' with _ | n
  · have hm : '/' ∉ tok.toList := List.count_eq_zero.mp hc
    have hcon : tok.toList.contains '/' = false := by simpa using hm
    rw [hcon]
    simp
  · have hm : '/' ∈ tok.toList := List.count_pos_iff.mp (by omega)
    have hcon : tok.toList.contains '/' = true := by simpa using hm
    rcases n with _ | n2
    · have hc1 : tok.toList.count '/' = 1 := by omega
      have hsp1 : splitOnChar '/' tok.data
          = [List.takeWhile (fun x => x != '/') tok.data,
             (List.dropWhile (fun x => x != '/') tok.data).drop 1] :=
        splitOnChar_count_one '/' tok.toList hc1
      rw [hcon]
      simp [pySplitMax2, hsp1]
    · have hlen : (splitOnChar '/' tok.toList).length = n2 + 3 := by
        rw [length_splitOnChar, hc]
      rcases hsp : splitOnChar '/' tok.toList with _ | ⟨p0, _ | ⟨p1, _ | ⟨p2, rest⟩⟩⟩
      · rw [hsp] at hlen
        simp at hlen
      · rw [hsp] at hlen
        simp at hlen
      · rw [hsp] at hlen
        simp at hlen
      · have hsp2 : splitOnChar '/' tok.data = p0 :: p1 :: p2 :: rest := hsp
        rw [hcon]
        simp [pySplitMax2, hsp2]

theorem mapE_congr (f g : α → Except PyErr β) (l : List α)
    (h : ∀ a, f a = g a) : mapE f l = mapE g l := by
  induction l with
  | nil => rfl
  | cons x xs ih => simp [mapE, h x, ih]

/-- `find_destinations` is the per-token resolution mapped over the
comma-split annotation value, in declared order, without deduplication. -/
theorem find_destinations_eq (meta : Obj) (ns : String) (anns : Obj)
    (v : String)
    (h1 : getStr meta "namespace" = .ok ns)
    (h2 : getDict meta "annotations" = .ok anns)
    (h3 : getStr anns ANN_SYNC_TO = .ok v) :
    find_destinations meta = mapE ( _find_destination ns) (pySplit ',' v) := by
  unfold find_destinations
  rw [h1]
  show Except.bind (getDict meta "annotations") _ = _
  rw [h2]
  show Except.bind (getStr anns ANN_SYNC_TO) _ = _
  rw [h3]
  rfl

/-- C2 counterexample: the token `a/b/c` contains `/` but does not yield a
cross-namespace reference — resolution raises `ValueError` (Python: the
2-target unpacking of `name.split("/", 2)`, which has three parts, fails),
so `find_destinations` errors instead of returning a reference list. -/
theorem claim_C2_counterexample :
    ("a/b/c".toList.contains '/') = true ∧
    _find_destination "ns1" "a/b/c" = .error PyErr.valueError ∧
    find_destinations [("namespace", Jv.str "ns1"),
        ("annotations", Jv.dict [(ANN_SYNC_TO, Jv.str "a/b/c")])]
      = .error PyErr.valueError :=
  ⟨rfl, rfl, rfl⟩

/-- C2 (amended): `find_destinations` splits the annotation value on `,`
and resolves the tokens in declared order without deduplication, where a
token with no `/` resolves in the source's own namespace, a token with
exactly one `/` yields a cross-namespace reference split at it, and a token
with two or more `/` raises `ValueError`. -/
theorem claim_C2 (meta : Obj) (ns : String) (anns : Obj) (v : String)
    (h1 : getStr meta "namespace" = .ok ns)
    (h2 : getDict meta "annotations" = .ok anns)
    (h3 : getStr anns ANN_SYNC_TO = .ok v) :
    find_destinations meta = mapE (resolveTokenSpec ns) (pySplit ',' v) := by
  rw [find_destinations_eq meta ns anns v h1 h2 h3]
  exact mapE_congr _ _ _ (fun tok => _find_destination_eq_spec ns tok)

theorem claim_C2_witness :
    getStr [("namespace", Jv.str "ns"),
      ("annotations", Jv.dict [(ANN_SYNC_TO, Jv.str "dst1,dst1,ns2/dst2")])]
      "namespace" = .ok "ns" ∧
    getDict [("namespace", Jv.str "ns"),
      ("annotations", Jv.dict [(ANN_SYNC_TO, Jv.str "dst1,dst1,ns2/dst2")])]
      "annotations"
      = .ok [(ANN_SYNC_TO, Jv.str "dst1,dst1,ns2/dst2")] ∧
    getStr [(ANN_SYNC_TO, Jv.str "dst1,dst1,ns2/dst2")] ANN_SYNC_TO
      = .ok "dst1,dst1,ns2/dst2" ∧
    find_destinations [("namespace", Jv.str "ns"),
        ("annotations", Jv.dict [(ANN_SYNC_TO, Jv.str "dst1,dst1,ns2/dst2")])]
      = mapE (resolveTokenSpec "ns") (pySplit ',' "dst1,dst1,ns2/dst2") :=
  ⟨rfl, rfl, rfl, claim_C2 _ "ns" _ "dst1,dst1,ns2/dst2" rfl rfl rfl⟩

theorem claim_C5_witness :
    from_meta [("namespace", Jv.str "n"), ("name", Jv.str "d")]
      = .ok ⟨"n", "d"⟩ ∧
    (some "ADDED" : Option String) ≠ some "DELETED" ∧
    dmapGet [(⟨"n", "d"⟩, [⟨"n", "s"⟩])] ⟨"n", "d"⟩ = [⟨"n", "s"⟩] ∧
    storeGet [(⟨"n", "s"⟩, [])] ⟨"n", "s"⟩ = .ok [] ∧
    watched_secret_event [("namespace", Jv.str "n"), ("name", Jv.str "d")]
        (some "ADDED") ⟨[(⟨"n", "s"⟩, [])], [(⟨"n", "d"⟩, [⟨"n", "s"⟩])], []⟩
      = (copy_secret_data [] [(⟨"n", "s"⟩, [])] []).map
          (fun p => ⟨p.1, [(⟨"n", "d"⟩, [⟨"n", "s"⟩])], p.2⟩) :=
  ⟨rfl, by decide, rfl, rfl,
    claim_C5 _ (some "ADDED") _ ⟨"n", "d"⟩ ⟨"n", "s"⟩ [] rfl (by decide) rfl rfl⟩

/-! ### Characterising one sync step -/

theorem storePatch_absent (st : Store) (d : SecretRef) (po : Obj)
    (h : alLookup st d = none) : storePatch st d po = .error (.http 404) := by
  simp [storePatch, h]

theorem storePatch_found (st : Store) (d : SecretRef) (po obj m : Obj)
    (h : alLookup st d = some obj) (hm : smd obj po = some m) :
    storePatch st d po = .ok (m, alInsert st d m) := by
  simp [storePatch, h, hm]

theorem patchCore_absent (d : SecretRef) (po : Obj) (st : Store) (log : Log)
    (h : alLookup st d = none) :
    patchCore d po st log = .ok ((stubObj d, st), log ++ [.warnNotFound d]) := by
  simp [patchCore, storePatch_absent st d po h, existingWrap]

theorem patchCore_found (d : SecretRef) (po obj m : Obj) (st : Store)
    (log : Log) (h : alLookup st d = some obj) (hm : smd obj po = some m) :
    patchCore d po st log = .ok ((m, alInsert st d m), log) := by
  simp [patchCore, storePatch_found st d po obj m h hm, existingWrap]

/-- A sync step to a missing destination: exactly one warning, the success
info line carrying the local stub, and no store change. -/
theorem syncOne_notFound (src data : Obj) (d : SecretRef) (st : Store)
    (log : Log) (hd : getDict src "data" = .ok data)
    (h : alLookup st d = none) :
    syncOne src d st log
      = .ok (st, log ++ [.warnNotFound d, .infoSynced (stubObj d)]) := by
  unfold syncOne
  rw [hd]
  show Except.bind (SecretRef.patch d [("data", Jv.dict data)] st log) _ = _
  rw [show SecretRef.patch d [("data", Jv.dict data)] st log
    = patchCore d (fullPatch data) st log from rfl]
  rw [patchCore_absent d (fullPatch data) st log h]
  show Except.ok (st, (log ++ [LogEntry.warnNotFound d])
    ++ [LogEntry.infoSynced (stubObj d)]) = _
  simp

/-- A sync step to a present destination: the strategic merge of the full
patch is written back and the success info line logged. -/
theorem syncOne_found (src data obj m : Obj) (d : SecretRef) (st : Store)
    (log : Log) (hd : getDict src "data" = .ok data)
    (h : alLookup st d = some obj)
    (hm : smd obj (fullPatch data) = some m) :
    syncOne src d st log = .ok (alInsert st d m, log ++ [.infoSynced m]) := by
  unfold syncOne
  rw [hd]
  show Except.bind (SecretRef.patch d [("data", Jv.dict data)] st log) _ = _
  rw [show SecretRef.patch d [("data", Jv.dict data)] st log
    = patchCore d (fullPatch data) st log from rfl]
  rw [patchCore_found d (fullPatch data) obj m st log h hm]
  rfl

/-! ### Empty tokens are not validated (claim C10) -/

/-- C10: an empty or trailing-comma sync declaration raises no validation
error: each empty token resolves to the source's own namespace with the
empty name, and the copy loop then treats that reference like any other
destination — absent from the store it logs the usual single not-found
warning and leaves the store unchanged. -/
theorem claim_C10 (meta : Obj) (ns : String) (anns : Obj) (v : String)
    (h1 : getStr meta "namespace" = .ok ns)
    (h2 : getDict meta "annotations" = .ok anns)
    (h3 : getStr anns ANN_SYNC_TO = .ok v) :
    (∀ ns2 : String, _find_destination ns2 "" = .ok ⟨ns2, ""⟩) ∧
    find_destinations meta = mapE ( _find_destination ns) (pySplit ',' v) ∧
    (v = "" → find_destinations meta = .ok [⟨ns, ""⟩]) ∧
    (∀ (src data : Obj) (st : Store) (log : Log),
      getDict src "data" = .ok data →
      alLookup st (⟨ns, ""⟩ : SecretRef) = none →
      syncOne src ⟨ns, ""⟩ st log
        = .ok (st, log ++ [.warnNotFound ⟨ns, ""⟩,
            .infoSynced (stubObj ⟨ns, ""⟩)])) := by
  refine ⟨fun ns2 => rfl, find_destinations_eq meta ns anns v h1 h2 h3,
    ?_, ?_⟩
  · rintro rfl
    rw [find_destinations_eq meta ns anns "" h1 h2 h3]
    rfl
  · intro src data st log hd habs
    exact syncOne_notFound src data ⟨ns, ""⟩ st log hd habs

theorem claim_C10_witness :
    getStr [("namespace", Jv.str "ns"),
      ("annotations", Jv.dict [(ANN_SYNC_TO, Jv.str "")])] "namespace"
      = .ok "ns" ∧
    getDict [("namespace", Jv.str "ns"),
      ("annotations", Jv.dict [(ANN_SYNC_TO, Jv.str "")])] "annotations"
      = .ok [(ANN_SYNC_TO, Jv.str "")] ∧
    getStr [(ANN_SYNC_TO, Jv.str "")] ANN_SYNC_TO = .ok "" ∧
    find_destinations [("namespace", Jv.str "ns"),
        ("annotations", Jv.dict [(ANN_SYNC_TO, Jv.str "")])]
      = .ok [⟨"ns", ""⟩] :=
  ⟨rfl, rfl, rfl,
    (claim_C10 [("namespace", Jv.str "ns"),
        ("annotations", Jv.dict [(ANN_SYNC_TO, Jv.str "")])]
      "ns" [(ANN_SYNC_TO, Jv.str "")] "" rfl rfl rfl).2.2.1 rfl⟩

/-! ### The merge law for data mappings (claim C3) -/

theorem smd_flat_aux (S : Obj) : ∀ D : Obj,
    S.all (fun kv => kv.2.isStr) = true → (S.map Prod.fst).Nodup →
    ∃ M, smd D S = some M ∧
      (∀ k, (alLookup M k).isSome
        ↔ (alLookup D k).isSome ∨ (alLookup S k).isSome) ∧
      (∀ k v, alLookup S k = some v → alLookup M k = some v) ∧
      (∀ k, alLookup S k = none → alLookup M k = alLookup D k) := by
  induction S with
  | nil =>
    intro D _ _
    exact ⟨D, rfl, by simp [alLookup], by simp [alLookup], fun _ _ => rfl⟩
  | cons kv rest ih =>
    intro D hall hnd
    obtain ⟨k, v⟩ := kv
    have hv : v.isStr = true := by
      simp [List.all_cons] at hall
      exact hall.1
    rcases v with s | dl
    case dict => simp [Jv.isStr] at hv
    case str =>
    have hall' : rest.all (fun kv => kv.2.isStr) = true := by
      simp [List.all_cons] at hall
      simpa [List.all_eq_true] using hall.2
    have hnd' : (rest.map Prod.fst).Nodup := (List.nodup_cons.mp hnd).2
    have hkn : k ∉ rest.map Prod.fst := (List.nodup_cons.mp hnd).1
    obtain ⟨M, hM, hmem, hin, hout⟩ := ih (alInsert D k (Jv.str s)) hall' hnd'
    refine ⟨M, ?_, ?_, ?_, ?_⟩
    · rw [smd_cons_str]
      exact hM
    · intro k'
      rw [hmem k', alLookup_isSome_insert]
      by_cases hkk : k = k'
      · subst hkk
        simp [alLookup]
      · simp [alLookup, hkk, Ne.symm hkk]
    · intro k' v' hl
      by_cases hkk : k = k'
      · subst hkk
        simp [alLookup] at hl
        have hrest : alLookup rest k = none :=
          alLookup_eq_none_of_not_mem rest k hkn
        rw [hout k hrest, alLookup_insert_self, hl]
      · simp [alLookup, hkk] at hl
        exact hin k' v' hl
    · intro k' hl
      by_cases hkk : k = k'
      · subst hkk
        simp [alLookup] at hl
      · simp [alLookup, hkk] at hl
        rw [hout k' hl, alLookup_insert_ne D k k' _ (Ne.symm hkk)]

/-- C3: for flat destination data `D` and source data `S` (string-valued,
duplicate-free, as every Python `data` dict is), the strategic merge
succeeds and satisfies the merge law: its key set is `keys D ∪ keys S`,
keys of `S` take `S`'s value, and keys of `D` only keep `D`'s value. -/
theorem claim_C3 (D S : Obj)
    (hS : S.all (fun kv => kv.2.isStr) = true)
    (_hD : D.all (fun kv => kv.2.isStr) = true)
    (hnS : (S.map Prod.fst).Nodup) :
    ∃ M, smd D S = some M ∧
      (∀ k, (alLookup M k).isSome
        ↔ (alLookup D k).isSome ∨ (alLookup S k).isSome) ∧
      (∀ k v, alLookup S k = some v → alLookup M k = some v) ∧
      (∀ k, alLookup S k = none → alLookup M k = alLookup D k) :=
  smd_flat_aux S D hS hnS

theorem claim_C3_witness :
    ([(("foo" : String), Jv.str "x")].all (fun kv => kv.2.isStr) = true) ∧
    ([(("bar" : String), Jv.str "keep")].all (fun kv => kv.2.isStr) = true) ∧
    (([(("foo" : String), Jv.str "x")].map Prod.fst).Nodup) ∧
    (∃ M, smd [("bar", Jv.str "keep")] [("foo", Jv.str "x")] = some M ∧
      (∀ k, (alLookup M k).isSome
        ↔ (alLookup [("bar", Jv.str "keep")] k).isSome
          ∨ (alLookup [("foo", Jv.str "x")] k).isSome) ∧
      (∀ k v, alLookup [("foo", Jv.str "x")] k = some v
        → alLookup M k = some v) ∧
      (∀ k, alLookup [("foo", Jv.str "x")] k = none
        → alLookup M k = alLookup [("bar", Jv.str "keep")] k)) :=
  ⟨rfl, rfl, by decide,
    claim_C3 [("bar", Jv.str "keep")] [("foo", Jv.str "x")] rfl rfl (by decide)⟩

/-! ### The destination registry only grows (claim C9) -/

theorem alLookup_append_some [DecidableEq κ] (l rest : List (κ × α)) (k : κ)
    (u : α) (h : alLookup l k = some u) : alLookup (l ++ rest) k = some u := by
  induction l with
  | nil => simp [alLookup] at h
  | cons hd tl ih =>
    obtain ⟨a, b⟩ := hd
    by_cases hh : a = k
    · simp [alLookup, hh] at h ⊢
      exact h
    · simp [alLookup, hh] at h ⊢
      exact ih h

theorem mem_setAdd (s : List SecretRef) (x y : SecretRef) (h : y ∈ s) :
    y ∈ setAdd s x := by
  unfold setAdd
  split <;> simp [h]

theorem dmapGet_add_mono (m : DMap) (s d x d' : SecretRef)
    (h : x ∈ dmapGet m d') :
    x ∈ dmapGet (_add_src_dst_mapping m s d) d' := by
  unfold _add_src_dst_mapping
  rcases hl : alLookup m d with _ | l
  · unfold dmapGet at h ⊢
    rcases hl' : alLookup m d' with _ | l'
    · rw [hl'] at h
      simp at h
    · rw [alLookup_append_some m _ d' l' hl']
      rw [hl'] at h
      exact h
  · unfold dmapGet at h ⊢
    by_cases hd' : d' = d
    · subst hd'
      rw [alLookup_insert_self]
      rw [hl] at h
      exact mem_setAdd l s x h
    · rw [alLookup_insert_ne m d d' _ hd']
      exact h

theorem add_mapping_idem (m : DMap) (s d : SecretRef)
    (h : s ∈ dmapGet m d) : _add_src_dst_mapping m s d = m := by
  unfold _add_src_dst_mapping
  rcases hl : alLookup m d with _ | l
  · unfold dmapGet at h
    rw [hl] at h
    simp at h
  · unfold dmapGet at h
    rw [hl] at h
    simp at h
    show alInsert m d (setAdd l s) = m
    rw [show setAdd l s = l from by unfold setAdd; simp [h]]
    exact alInsert_lookup_self m d l hl

theorem dmapGet_fold_mono (refs : List SecretRef) (src : SecretRef) :
    ∀ (m : DMap) (d x : SecretRef), x ∈ dmapGet m d →
    x ∈ dmapGet (refs.foldl (fun mm dd => _add_src_dst_mapping mm src dd) m)
      d := by
  induction refs with
  | nil => intro m d x h; exact h
  | cons r rest ih =>
    intro m d x h
    exact ih _ d x (dmapGet_add_mono m src r x d h)

/-- Inversion for a successful source event: the resulting registry is
either exactly the old one (deleted event) or the fold of `record` calls
over the resolved destinations. -/
theorem source_secret_event_inv (body meta : Obj) (ev : Option String)
    (σ σ' : SysState) (h : source_secret_event body meta ev σ = .ok σ') :
    σ'.destination_map = σ.destination_map ∨
    ∃ r refs, from_meta meta = .ok r ∧ find_destinations meta = .ok refs ∧
      σ'.destination_map = refs.foldl
        (fun mm dd => _add_src_dst_mapping mm r dd) σ.destination_map := by
  unfold source_secret_event at h
  rcases hfm : from_meta meta with e | r
  · rw [hfm] at h
    exact Except.noConfusion
      (show (Except.error e : Except PyErr SysState) = .ok σ' from h)
  · rw [hfm] at h
    by_cases hev : ev = some "DELETED"
    · subst hev
      have h1 : Except.ok { σ with log := σ.log ++ [.warnSourceDeleted r] }
          = Except.ok σ' := h
      left
      rw [← Except.ok.inj h1]
    · have h0 : (if ev = some "DELETED" then
          Except.ok { σ with log := σ.log ++ [.warnSourceDeleted r] }
        else Except.bind (find_destinations meta) (fun refs =>
          Except.bind (copy_secret_data body σ.secrets σ.log) (fun p =>
            Except.ok (⟨p.1, refs.foldl
              (fun mm dd => _add_src_dst_mapping mm r dd)
              σ.destination_map, p.2⟩ : SysState))))
          = Except.ok σ' := h
      rw [if_neg hev] at h0
      rcases hfd : find_destinations meta with e | refs
      · rw [hfd] at h0
        exact Except.noConfusion
          (show (Except.error e : Except PyErr SysState) = .ok σ' from h0)
      · rw [hfd] at h0
        have h2 : Except.bind (copy_secret_data body σ.secrets σ.log) (fun p =>
            Except.ok (⟨p.1, refs.foldl
              (fun mm dd => _add_src_dst_mapping mm r dd) σ.destination_map,
              p.2⟩ : SysState)) = Except.ok σ' := h0
        rcases hc : copy_secret_data body σ.secrets σ.log with e | ⟨st', lg'⟩
        · rw [hc] at h2
          exact Except.noConfusion
            (show (Except.error e : Except PyErr SysState) = .ok σ' from h2)
        · rw [hc] at h2
          right
          exact ⟨r, refs, rfl, rfl, by rw [← Except.ok.inj h2]⟩

theorem syncFromSources_dmap (l : List SecretRef) : ∀ (σ σ' : SysState),
    syncFromSources l σ = .ok σ' →
    σ'.destination_map = σ.destination_map := by
  induction l with
  | nil =>
    intro σ σ' h
    have h' : Except.ok σ = Except.ok σ' := h
    rw [← Except.ok.inj h']
  | cons s rest ih =>
    intro σ σ' h
    have h0 : Except.bind (SecretRef.get s σ.secrets σ.log) (fun q =>
        match q.1 with
        | some src => Except.bind (copy_secret_data src σ.secrets q.2)
            (fun p => syncFromSources rest ⟨p.1, σ.destination_map, p.2⟩)
        | none => syncFromSources rest { σ with log := q.2 })
        = Except.ok σ' := h
    rcases hg : SecretRef.get s σ.secrets σ.log with e | ⟨srcOpt, lg⟩
    · rw [hg] at h0
      exact Except.noConfusion
        (show (Except.error e : Except PyErr SysState) = .ok σ' from h0)
    · rw [hg] at h0
      rcases srcOpt with _ | src
      · have h1 : syncFromSources rest { σ with log := lg } = .ok σ' := h0
        rw [ih _ _ h1]
      · have h1 : Except.bind (copy_secret_data src σ.secrets lg)
            (fun p => syncFromSources rest ⟨p.1, σ.destination_map, p.2⟩)
            = .ok σ' := h0
        rcases hc : copy_secret_data src σ.secrets lg with e | ⟨st', lg'⟩
        · rw [hc] at h1
          exact Except.noConfusion
            (show (Except.error e : Except PyErr SysState) = .ok σ' from h1)
        · rw [hc] at h1
          have h2 : syncFromSources rest ⟨st', σ.destination_map, lg'⟩
              = .ok σ' := h1
          rw [ih _ _ h2]

/-- Inversion for a successful destination event: the registry afterwards
is exactly the registry before. -/
theorem watched_secret_event_dmap (meta : Obj) (ev : Option String)
    (σ σ' : SysState) (h : watched_secret_event meta ev σ = .ok σ') :
    σ'.destination_map = σ.destination_map := by
  unfold watched_secret_event at h
  rcases hfm : from_meta meta with e | r
  · rw [hfm] at h
    exact Except.noConfusion
      (show (Except.error e : Except PyErr SysState) = .ok σ' from h)
  · rw [hfm] at h
    by_cases hev : ev = some "DELETED"
    · subst hev
      have h1 : Except.ok { σ with log := σ.log ++ [.warnWatchedDeleted r] }
          = Except.ok σ' := h
      rw [← Except.ok.inj h1]
    · have h0 : (if ev = some "DELETED" then
          Except.ok { σ with log := σ.log ++ [.warnWatchedDeleted r] }
        else syncFromSources (dmapGet σ.destination_map r) σ)
          = Except.ok σ' := h
      rw [if_neg hev] at h0
      exact syncFromSources_dmap _ _ _ h0

/-- C9: the destination registry grows monotonically: `record`
(`_add_src_dst_mapping`) only extends a destination's source set and is
idempotent on an already-present pair; a successful source event never
removes an entry (and a deleted source event changes nothing), and a
destination event never touches the registry at all. -/
theorem claim_C9 :
    (∀ (m : DMap) (s d x d' : SecretRef), x ∈ dmapGet m d' →
      x ∈ dmapGet (_add_src_dst_mapping m s d) d') ∧
    (∀ (m : DMap) (s d : SecretRef), s ∈ dmapGet m d →
      _add_src_dst_mapping m s d = m) ∧
    (∀ (body meta : Obj) (ev : Option String) (σ σ' : SysState),
      source_secret_event body meta ev σ = .ok σ' →
      ∀ (d x : SecretRef), x ∈ dmapGet σ.destination_map d →
        x ∈ dmapGet σ'.destination_map d) ∧
    (∀ (body meta : Obj) (σ σ' : SysState),
      source_secret_event body meta (some "DELETED") σ = .ok σ' →
      σ'.destination_map = σ.destination_map) ∧
    (∀ (meta : Obj) (ev : Option String) (σ σ' : SysState),
      watched_secret_event meta ev σ = .ok σ' →
      σ'.destination_map = σ.destination_map) := by
  refine ⟨dmapGet_add_mono, add_mapping_idem, ?_, ?_, watched_secret_event_dmap⟩
  · intro body meta ev σ σ' h d x hx
    rcases source_secret_event_inv body meta ev σ σ' h with he | ⟨r, refs, _, _, he⟩
    · rw [he]
      exact hx
    · rw [he]
      exact dmapGet_fold_mono refs r σ.destination_map d x hx
  · intro body meta σ σ' h
    unfold source_secret_event at h
    rcases hfm : from_meta meta with e | r
    · rw [hfm] at h
      exact Except.noConfusion
        (show (Except.error e : Except PyErr SysState) = .ok σ' from h)
    · rw [hfm] at h
      have h1 : Except.ok { σ with log := σ.log ++ [.warnSourceDeleted r] }
          = Except.ok σ' := h
      rw [← Except.ok.inj h1]

theorem claim_C9_witness :
    ((⟨"n", "s"⟩ : SecretRef) ∈ dmapGet [(⟨"n", "d"⟩, [⟨"n", "s"⟩])] ⟨"n", "d"⟩) ∧
    ((⟨"n", "s"⟩ : SecretRef) ∈ dmapGet
      (_add_src_dst_mapping [(⟨"n", "d"⟩, [⟨"n", "s"⟩])] ⟨"n", "s2"⟩ ⟨"n", "d2"⟩)
      ⟨"n", "d"⟩) ∧
    _add_src_dst_mapping [(⟨"n", "d"⟩, [⟨"n", "s"⟩])] ⟨"n", "s"⟩ ⟨"n", "d"⟩
      = [(⟨"n", "d"⟩, [⟨"n", "s"⟩])] :=
  ⟨by decide,
    claim_C9.1 [(⟨"n", "d"⟩, [⟨"n", "s"⟩])] ⟨"n", "s2"⟩ ⟨"n", "d2"⟩
      ⟨"n", "s"⟩ ⟨"n", "d"⟩ (by decide),
    claim_C9.2.1 [(⟨"n", "d"⟩, [⟨"n", "s"⟩])] ⟨"n", "s"⟩ ⟨"n", "d"⟩ (by decide)⟩

/-! ### Skipping a missing destination (claim C1) -/

theorem sync_dests_append (src : Obj) (xs ys : List SecretRef) :
    ∀ (st : Store) (log : Log),
    sync_dests src (xs ++ ys) st log
      = Except.bind (sync_dests src xs st log)
          (fun p => sync_dests src ys p.1 p.2) := by
  induction xs with
  | nil => intro st log; rfl
  | cons d rest ih =>
    intro st log
    show Except.bind (syncOne src d st log)
        (fun p => sync_dests src (rest ++ ys) p.1 p.2)
      = Except.bind (Except.bind (syncOne src d st log)
          (fun p => sync_dests src rest p.1 p.2))
          (fun p => sync_dests src ys p.1 p.2)
    rcases syncOne src d st log with e | ⟨st2, lg2⟩
    · rfl
    · exact ih st2 lg2

/-- A successful sync step either leaves the store untouched (missing
destination) or overwrites the one existing entry it patched. -/
theorem syncOne_store_inv (src : Obj) (d : SecretRef) (st : Store)
    (log : Log) (st2 : Store) (lg2 : Log)
    (h : syncOne src d st log = .ok (st2, lg2)) :
    st2 = st ∨ ∃ obj m, alLookup st d = some obj ∧ st2 = alInsert st d m := by
  unfold syncOne at h
  rcases hd : getDict src "data" with e | data
  · rw [hd] at h
    exact Except.noConfusion (show (Except.error e : Except PyErr (Store × Log))
      = .ok (st2, lg2) from h)
  · rw [hd] at h
    have h1 : Except.bind (patchCore d (fullPatch data) st log)
        (fun x => Except.ok (x.1.2, x.2 ++ [LogEntry.infoSynced x.1.1]))
        = .ok (st2, lg2) := h
    rcases hl : alLookup st d with _ | obj
    · rw [patchCore_absent d (fullPatch data) st log hl] at h1
      have h2 : Except.ok ((st : Store), log ++ [LogEntry.warnNotFound d]
          ++ [LogEntry.infoSynced (stubObj d)]) = .ok (st2, lg2) := h1
      left
      exact (congrArg Prod.fst (Except.ok.inj h2)).symm
    · rcases hm : smd obj (fullPatch data) with _ | m
      · rw [show patchCore d (fullPatch data) st log = .error .typeError from by
          simp [patchCore, storePatch, hl, hm, existingWrap]] at h1
        exact Except.noConfusion
          (show (Except.error PyErr.typeError : Except PyErr (Store × Log))
            = .ok (st2, lg2) from h1)
      · rw [patchCore_found d (fullPatch data) obj m st log hl hm] at h1
        have h2 : Except.ok ((alInsert st d m : Store),
            log ++ [LogEntry.infoSynced m]) = .ok (st2, lg2) := h1
        right
        exact ⟨obj, m, rfl, (congrArg Prod.fst (Except.ok.inj h2)).symm⟩

/-- The sync loop never creates store entries: a reference absent before a
successful loop run is still absent afterwards. -/
theorem sync_dests_none_preserved (src : Obj) (refs : List SecretRef) :
    ∀ (st : Store) (log : Log) (st1 : Store) (lg1 : Log) (x : SecretRef),
    sync_dests src refs st log = .ok (st1, lg1) →
    alLookup st x = none → alLookup st1 x = none := by
  induction refs with
  | nil =>
    intro st log st1 lg1 x h hx
    have h' : Except.ok ((st : Store), log) = .ok (st1, lg1) := h
    rw [show st1 = st from (congrArg Prod.fst (Except.ok.inj h')).symm]
    exact hx
  | cons d rest ih =>
    intro st log st1 lg1 x h hx
    have h0 : Except.bind (syncOne src d st log)
        (fun p => sync_dests src rest p.1 p.2) = .ok (st1, lg1) := h
    rcases hs : syncOne src d st log with e | ⟨st2, lg2⟩
    · rw [hs] at h0
      exact Except.noConfusion
        (show (Except.error e : Except PyErr (Store × Log))
          = .ok (st1, lg1) from h0)
    · rw [hs] at h0
      have h1 : sync_dests src rest st2 lg2 = .ok (st1, lg1) := h0
      rcases syncOne_store_inv src d st log st2 lg2 hs with he | ⟨obj, m, hl, he⟩
      · rw [he] at h1
        exact ih st lg2 st1 lg1 x h1 hx
      · have hxd : x ≠ d := by
          rintro rfl
          rw [hx] at hl
          exact Option.noConfusion hl
        have hx2 : alLookup st2 x = none := by
          rw [he, alLookup_insert_ne st d x m hxd]
          exact hx
        exact ih st2 lg2 st1 lg1 x h1 hx2

/-- C1: when a declared destination is absent from the store, copying skips
exactly it: the run up to it is unchanged, the step for it performs no
store action, raises nothing, appends exactly one `Secret not found`
warning (plus the unconditional info line, which logs the local stub), and
the loop continues with the remaining declared destinations. -/
theorem claim_C1 (src meta data : Obj) (pre post : List SecretRef)
    (d : SecretRef) (st st1 : Store) (log log1 : Log)
    (hm : getDict src "metadata" = .ok meta)
    (hd : getDict src "data" = .ok data)
    (hr : find_destinations meta = .ok (pre ++ d :: post))
    (hpre : sync_dests src pre st log = .ok (st1, log1))
    (habs : alLookup st d = none) :
    alLookup st1 d = none ∧
    copy_secret_data src st log
      = sync_dests src post st1
          (log1 ++ [.warnNotFound d, .infoSynced (stubObj d)]) := by
  have h1 : alLookup st1 d = none :=
    sync_dests_none_preserved src pre st log st1 log1 d hpre habs
  refine ⟨h1, ?_⟩
  unfold copy_secret_data
  rw [hm]
  show Except.bind (find_destinations meta)
    (fun refs => sync_dests src refs st log) = _
  rw [hr]
  show sync_dests src (pre ++ d :: post) st log = _
  rw [sync_dests_append src pre (d :: post) st log, hpre]
  show Except.bind (syncOne src d st1 log1)
    (fun p => sync_dests src post p.1 p.2) = _
  rw [syncOne_notFound src data d st1 log1 hd h1]
  rfl

theorem claim_C1_witness :
    getDict [("metadata", Jv.dict [("namespace", Jv.str "ns"),
        ("annotations", Jv.dict [(ANN_SYNC_TO, Jv.str "missing")])]),
      ("data", Jv.dict [("foo", Jv.str "x")])] "metadata"
      = .ok [("namespace", Jv.str "ns"),
        ("annotations", Jv.dict [(ANN_SYNC_TO, Jv.str "missing")])] ∧
    find_destinations [("namespace", Jv.str "ns"),
        ("annotations", Jv.dict [(ANN_SYNC_TO, Jv.str "missing")])]
      = .ok ([] ++ (⟨"ns", "missing"⟩ : SecretRef) :: []) ∧
    alLookup ([] : Store) (⟨"ns", "missing"⟩ : SecretRef) = none ∧
    copy_secret_data [("metadata", Jv.dict [("namespace", Jv.str "ns"),
        ("annotations", Jv.dict [(ANN_SYNC_TO, Jv.str "missing")])]),
      ("data", Jv.dict [("foo", Jv.str "x")])] [] []
      = sync_dests [("metadata", Jv.dict [("namespace", Jv.str "ns"),
          ("annotations", Jv.dict [(ANN_SYNC_TO, Jv.str "missing")])]),
        ("data", Jv.dict [("foo", Jv.str "x")])] [] []
          ([] ++ [.warnNotFound ⟨"ns", "missing"⟩,
            .infoSynced (stubObj ⟨"ns", "missing"⟩)]) :=
  ⟨rfl, rfl, rfl,
    (claim_C1 [("metadata", Jv.dict [("namespace", Jv.str "ns"),
        ("annotations", Jv.dict [(ANN_SYNC_TO, Jv.str "missing")])]),
      ("data", Jv.dict [("foo", Jv.str "x")])]
      [("namespace", Jv.str "ns"),
        ("annotations", Jv.dict [(ANN_SYNC_TO, Jv.str "missing")])]
      [("foo", Jv.str "x")] [] [] ⟨"ns", "missing"⟩ [] [] [] []
      rfl rfl rfl rfl rfl).2⟩

/-! ### Idempotence of copy (claim C4) -/

theorem smd_cons (o : Obj) (k : String) (v : Jv) (rest : Obj) :
    smd o ((k, v) :: rest) = match smdVal (alLookup o k) v with
      | none => none
      | some w => smd (alInsert o k w) rest := rfl

theorem nodupRec_dict_nodup {l : Obj} (h : NodupRec (Jv.dict l)) :
    (l.map Prod.fst).Nodup := by
  cases h
  assumption

theorem nodupRec_dict_values {l : Obj} (h : NodupRec (Jv.dict l)) :
    ∀ kv ∈ l, NodupRec kv.2 := by
  cases h
  assumption

theorem nodupRec_tail {k : String} {v : Jv} {rest : Obj}
    (h : NodupRec (Jv.dict ((k, v) :: rest))) : NodupRec (Jv.dict rest) := by
  refine NodupRec.dict rest ?_ ?_
  · have := nodupRec_dict_nodup h
    simp only [List.map_cons, List.nodup_cons] at this
    exact this.2
  · intro kv hkv
    exact nodupRec_dict_values h kv (List.mem_cons_of_mem _ hkv)

/-- Inverting `OptMatch`: the existing value is present and reflects the
patch value. -/
theorem optMatch_inv {w : Option Jv} {v : Jv} (h : OptMatch w v) :
    ∃ u, w = some u ∧ MatchVal u v := by
  cases h with
  | mk u v hm => exact ⟨u, rfl, hm⟩

/-- A duplicate-free value already reflects itself. -/
theorem matchval_refl (v : Jv) (h : NodupRec v) : MatchVal v v := by
  induction h with
  | str s => exact MatchVal.str s
  | dict l hn hrec ih =>
    refine MatchVal.dict l l (fun kv hkv => ?_)
    rw [alLookup_of_mem_nodup l kv hkv hn]
    exact OptMatch.mk _ _ (ih kv hkv)

/-- Merging only writes the patch's keys: lookups elsewhere are unchanged. -/
theorem smd_lookup_not_mem (x : String) : ∀ (p o m : Obj),
    x ∉ p.map Prod.fst → smd o p = some m →
    alLookup m x = alLookup o x := by
  intro p
  induction p with
  | nil =>
    intro o m _ h
    have h' : some o = some m := h
    rw [← Option.some.inj h']
  | cons kv rest ih =>
    intro o m hx h
    obtain ⟨k, v⟩ := kv
    simp only [List.map_cons, List.mem_cons] at hx
    push_neg at hx
    rw [smd_cons] at h
    rcases hw : smdVal (alLookup o k) v with _ | w
    · rw [hw] at h
      exact Option.noConfusion (show (none : Option Obj) = some m from h)
    · rw [hw] at h
      have h' : smd (alInsert o k w) rest = some m := h
      rw [ih (alInsert o k w) m hx.2 h', alLookup_insert_ne o k x w hx.1]

/-- If an object already reflects a duplicate-free patch, merging the patch
into it is a no-op. -/
theorem smd_of_match_aux : ∀ (n : Nat) (p : Obj), sizeOf p ≤ n →
    NodupRec (Jv.dict p) → ∀ o : Obj,
    (∀ kv ∈ p, OptMatch (alLookup o kv.1) kv.2) → smd o p = some o := by
  intro n
  induction n with
  | zero =>
    intro p hs _ _ _
    exfalso
    cases p <;> simp at hs
  | succ n ihn =>
    intro p hs hnd o hag
    rcases p with _ | ⟨⟨k, v⟩, rest⟩
    · rfl
    · obtain ⟨w, hw, hmv⟩ := optMatch_inv (hag (k, v) (List.mem_cons_self _ _))
      have hrest : sizeOf rest ≤ n := by
        simp at hs
        omega
      rcases v with s | pv
      · cases hmv
        rw [smd_cons,
          show smdVal (alLookup o k) (Jv.str s) = some (Jv.str s) from rfl]
        show smd (alInsert o k (Jv.str s)) rest = some o
        rw [alInsert_lookup_self o k (Jv.str s) hw]
        exact ihn rest hrest (nodupRec_tail hnd) o
          (fun kv hkv => hag kv (List.mem_cons_of_mem _ hkv))
      · cases hmv with
        | dict sub _ hsub =>
          have hpv : sizeOf pv ≤ n := by
            simp at hs
            omega
          have hsubmerge : smd sub pv = some sub :=
            ihn pv hpv
              (nodupRec_dict_values hnd (k, Jv.dict pv)
                (List.mem_cons_self _ _)) sub hsub
          rw [smd_cons, hw,
            show smdVal (some (Jv.dict sub)) (Jv.dict pv)
              = Option.map Jv.dict (smd sub pv) from rfl, hsubmerge]
          show smd (alInsert o k (Jv.dict sub)) rest = some o
          rw [alInsert_lookup_self o k (Jv.dict sub) hw]
          exact ihn rest hrest (nodupRec_tail hnd) o
            (fun kv hkv => hag kv (List.mem_cons_of_mem _ hkv))

/-- After a successful merge of a duplicate-free patch, the result reflects
the patch. -/
theorem match_of_smd_aux : ∀ (n : Nat) (p : Obj), sizeOf p ≤ n →
    NodupRec (Jv.dict p) → ∀ (o m : Obj), smd o p = some m →
    ∀ kv ∈ p, OptMatch (alLookup m kv.1) kv.2 := by
  intro n
  induction n with
  | zero =>
    intro p hs _ _ _ _ kv _
    exfalso
    cases p <;> simp at hs
  | succ n ihn =>
    intro p hs hnd o m hsmd kv hkv
    rcases p with _ | ⟨⟨k, v⟩, rest⟩
    · simp at hkv
    · have hknotin : k ∉ rest.map Prod.fst := by
        have := nodupRec_dict_nodup hnd
        simp only [List.map_cons, List.nodup_cons] at this
        exact this.1
      have hrest : sizeOf rest ≤ n := by
        simp at hs
        omega
      rw [smd_cons] at hsmd
      rcases v with s | pv
      · rw [show smdVal (alLookup o k) (Jv.str s) = some (Jv.str s) from rfl]
          at hsmd
        have hsmd' : smd (alInsert o k (Jv.str s)) rest = some m := hsmd
        rcases List.mem_cons.mp hkv with heq | hmem
        · subst heq
          rw [smd_lookup_not_mem k rest _ m hknotin hsmd',
            alLookup_insert_self]
          exact OptMatch.mk _ _ (MatchVal.str s)
        · exact ihn rest hrest (nodupRec_tail hnd) _ m hsmd' kv hmem
      · have hpv : sizeOf pv ≤ n := by
          simp at hs
          omega
        rcases hl : alLookup o k with _ | w
        · rw [hl,
            show smdVal none (Jv.dict pv) = some (Jv.dict pv) from rfl]
            at hsmd
          have hsmd' : smd (alInsert o k (Jv.dict pv)) rest = some m := hsmd
          rcases List.mem_cons.mp hkv with heq | hmem
          · subst heq
            rw [smd_lookup_not_mem k rest _ m hknotin hsmd',
              alLookup_insert_self]
            refine OptMatch.mk _ _ (matchval_refl _ ?_)
            exact nodupRec_dict_values hnd (k, Jv.dict pv)
              (List.mem_cons_self _ _)
          · exact ihn rest hrest (nodupRec_tail hnd) _ m hsmd' kv hmem
        · rcases w with s | sub
          · rw [hl,
              show smdVal (some (Jv.str s)) (Jv.dict pv) = none from rfl]
              at hsmd
            exact Option.noConfusion
              (show (none : Option Obj) = some m from hsmd)
          · rw [hl,
              show smdVal (some (Jv.dict sub)) (Jv.dict pv)
                = Option.map Jv.dict (smd sub pv) from rfl] at hsmd
            rcases hsm : smd sub pv with _ | mg
            · rw [hsm] at hsmd
              exact Option.noConfusion
                (show (none : Option Obj) = some m from hsmd)
            · rw [hsm] at hsmd
              have hsmd' : smd (alInsert o k (Jv.dict mg)) rest = some m :=
                hsmd
              rcases List.mem_cons.mp hkv with heq | hmem
              · subst heq
                rw [smd_lookup_not_mem k rest _ m hknotin hsmd',
                  alLookup_insert_self]
                refine OptMatch.mk _ _ (MatchVal.dict mg pv ?_)
                exact ihn pv hpv
                  (nodupRec_dict_values hnd (k, Jv.dict pv)
                    (List.mem_cons_self _ _)) sub mg hsm
              · exact ihn rest hrest (nodupRec_tail hnd) _ m hsmd' kv hmem

/-- Strategic-merge idempotence for duplicate-free patches. -/
theorem smd_idem (p o m : Obj) (hnd : NodupRec (Jv.dict p))
    (h : smd o p = some m) : smd m p = some m :=
  smd_of_match_aux (sizeOf p) p le_rfl hnd m
    (match_of_smd_aux (sizeOf p) p le_rfl hnd o m h)

theorem fullPatch_nodup (data : Obj) (h : NodupRec (Jv.dict data)) :
    NodupRec (Jv.dict (fullPatch data)) := by
  refine NodupRec.dict _ (by simp [fullPatch]) ?_
  intro kv hkv
  simp only [fullPatch, List.mem_cons] at hkv
  rcases hkv with he | he | he
  · rw [he]
    exact h
  · rw [he]
    refine NodupRec.dict _ (by simp) ?_
    intro kv2 h2
    simp at h2
    rw [h2]
    refine NodupRec.dict _ (by simp) ?_
    intro kv3 h3
    simp at h3
    rw [h3]
    exact NodupRec.str _
  · simp at he

/-- Full inversion of a successful sync step: either the destination was
missing and the store is untouched, or its object was overwritten with the
strategic merge of the full patch. -/
theorem syncOne_inv (src : Obj) (d : SecretRef) (st : Store) (log : Log)
    (st2 : Store) (lg2 : Log) (h : syncOne src d st log = .ok (st2, lg2)) :
    ∃ data, getDict src "data" = .ok data ∧
      ((alLookup st d = none ∧ st2 = st) ∨
       ∃ obj m, alLookup st d = some obj ∧ smd obj (fullPatch data) = some m
         ∧ st2 = alInsert st d m) := by
  unfold syncOne at h
  rcases hd : getDict src "data" with e | data
  · rw [hd] at h
    exact Except.noConfusion (show (Except.error e : Except PyErr (Store × Log))
      = .ok (st2, lg2) from h)
  · rw [hd] at h
    refine ⟨data, rfl, ?_⟩
    have h1 : Except.bind (patchCore d (fullPatch data) st log)
        (fun x => Except.ok (x.1.2, x.2 ++ [LogEntry.infoSynced x.1.1]))
        = .ok (st2, lg2) := h
    rcases hl : alLookup st d with _ | obj
    · rw [patchCore_absent d (fullPatch data) st log hl] at h1
      have h2 : Except.ok ((st : Store), log ++ [LogEntry.warnNotFound d]
          ++ [LogEntry.infoSynced (stubObj d)]) = .ok (st2, lg2) := h1
      exact Or.inl ⟨rfl, (congrArg Prod.fst (Except.ok.inj h2)).symm⟩
    · rcases hm : smd obj (fullPatch data) with _ | m
      · rw [show patchCore d (fullPatch data) st log = .error .typeError from by
          simp [patchCore, storePatch, hl, hm, existingWrap]] at h1
        exact Except.noConfusion
          (show (Except.error PyErr.typeError : Except PyErr (Store × Log))
            = .ok (st2, lg2) from h1)
      · rw [patchCore_found d (fullPatch data) obj m st log hl hm] at h1
        have h2 : Except.ok ((alInsert st d m : Store),
            log ++ [LogEntry.infoSynced m]) = .ok (st2, lg2) := h1
        exact Or.inr ⟨obj, m, rfl, hm,
          (congrArg Prod.fst (Except.ok.inj h2)).symm⟩

/-- A successful run of the sync loop does not change the store at any
reference outside the destination list. -/
theorem sync_dests_lookup_not_mem (src : Obj) (refs : List SecretRef) :
    ∀ (st : Store) (log : Log) (st1 : Store) (lg1 : Log) (x : SecretRef),
    x ∉ refs → sync_dests src refs st log = .ok (st1, lg1) →
    alLookup st1 x = alLookup st x := by
  induction refs with
  | nil =>
    intro st log st1 lg1 x _ h
    have h' : Except.ok ((st : Store), log) = .ok (st1, lg1) := h
    rw [show st1 = st from (congrArg Prod.fst (Except.ok.inj h')).symm]
  | cons d rest ih =>
    intro st log st1 lg1 x hx h
    have h0 : Except.bind (syncOne src d st log)
        (fun p => sync_dests src rest p.1 p.2) = .ok (st1, lg1) := h
    rcases hs : syncOne src d st log with e | ⟨st2, lg2⟩
    · rw [hs] at h0
      exact Except.noConfusion
        (show (Except.error e : Except PyErr (Store × Log))
          = .ok (st1, lg1) from h0)
    · rw [hs] at h0
      have h1 : sync_dests src rest st2 lg2 = .ok (st1, lg1) := h0
      have hxd : x ≠ d := fun he => hx (he ▸ List.mem_cons_self d rest)
      have hxrest : x ∉ rest := fun hm2 => hx (List.mem_cons_of_mem d hm2)
      rw [ih st2 lg2 st1 lg1 x hxrest h1]
      rcases syncOne_store_inv src d st log st2 lg2 hs with he | ⟨obj, m2, hl, he⟩
      · rw [he]
      · rw [he, alLookup_insert_ne st d x m2 hxd]

/-- After a successful sync, every declared destination still present in
the store holds an object on which the full patch is a fixed point. -/
theorem sync_dests_post_idem (src data : Obj)
    (hd : getDict src "data" = .ok data)
    (hnd : NodupRec (Jv.dict (fullPatch data))) (refs : List SecretRef) :
    ∀ (st : Store) (log : Log) (st1 : Store) (lg1 : Log),
    sync_dests src refs st log = .ok (st1, lg1) →
    ∀ r ∈ refs, ∀ obj, alLookup st1 r = some obj →
      smd obj (fullPatch data) = some obj := by
  induction refs with
  | nil =>
    intro st log st1 lg1 _ r hr
    simp at hr
  | cons d rest ih =>
    intro st log st1 lg1 h r hr obj hobj
    have h0 : Except.bind (syncOne src d st log)
        (fun p => sync_dests src rest p.1 p.2) = .ok (st1, lg1) := h
    rcases hs : syncOne src d st log with e | ⟨st2, lg2⟩
    · rw [hs] at h0
      exact Except.noConfusion
        (show (Except.error e : Except PyErr (Store × Log))
          = .ok (st1, lg1) from h0)
    · rw [hs] at h0
      have h1 : sync_dests src rest st2 lg2 = .ok (st1, lg1) := h0
      by_cases hrrest : r ∈ rest
      · exact ih st2 lg2 st1 lg1 h1 r hrrest obj hobj
      · have hrd : r = d := by
          rcases List.mem_cons.mp hr with he | hm2
          · exact he
          · exact absurd hm2 hrrest
        subst hrd
        rw [sync_dests_lookup_not_mem src rest st2 lg2 st1 lg1 r hrrest h1]
          at hobj
        obtain ⟨data', hd', hinv⟩ := syncOne_inv src r st log st2 lg2 hs
        have hdd : data' = data := by
          rw [hd] at hd'
          exact (Except.ok.inj hd').symm
        subst hdd
        rcases hinv with ⟨hnone, he⟩ | ⟨ob, m2, hl, hsm, he⟩
        · rw [he, hnone] at hobj
          exact Option.noConfusion hobj
        · rw [he, alLookup_insert_self] at hobj
          rw [show obj = m2 from (Option.some.inj hobj).symm]
          exact smd_idem (fullPatch data') ob m2 hnd hsm

/-- When every declared destination present in the store is already a fixed
point of the full patch, the sync loop leaves the store exactly unchanged
and succeeds. -/
theorem sync_dests_stable (src data : Obj)
    (hd : getDict src "data" = .ok data) (refs : List SecretRef) :
    ∀ (st : Store) (log : Log),
    (∀ r ∈ refs, ∀ obj, alLookup st r = some obj →
      smd obj (fullPatch data) = some obj) →
    ∃ lg, sync_dests src refs st log = .ok (st, lg) := by
  induction refs with
  | nil =>
    intro st log _
    exact ⟨log, rfl⟩
  | cons d rest ih =>
    intro st log hstable
    rcases hl : alLookup st d with _ | obj
    · obtain ⟨lg, hrest⟩ := ih st
        (log ++ [.warnNotFound d, .infoSynced (stubObj d)])
        (fun r hr => hstable r (List.mem_cons_of_mem _ hr))
      refine ⟨lg, ?_⟩
      show Except.bind (syncOne src d st log)
        (fun p => sync_dests src rest p.1 p.2) = .ok (st, lg)
      rw [syncOne_notFound src data d st log hd hl]
      exact hrest
    · have hsm : smd obj (fullPatch data) = some obj :=
        hstable d (List.mem_cons_self _ _) obj hl
      obtain ⟨lg, hrest⟩ := ih st (log ++ [.infoSynced obj])
        (fun r hr => hstable r (List.mem_cons_of_mem _ hr))
      refine ⟨lg, ?_⟩
      show Except.bind (syncOne src d st log)
        (fun p => sync_dests src rest p.1 p.2) = .ok (st, lg)
      rw [syncOne_found src data obj obj d st log hd hl hsm,
        alInsert_lookup_self st d obj hl]
      exact hrest

/-- C4: repeating `copy_secret_data` with unchanged source data is
equivalent to applying it once — the second run succeeds and leaves the
whole store (every destination's data included) exactly as after the first
run. -/
theorem claim_C4 (src data : Obj) (st st1 : Store) (log log1 : Log)
    (hd : getDict src "data" = .ok data)
    (hnd : NodupRec (Jv.dict data))
    (h1 : copy_secret_data src st log = .ok (st1, log1)) :
    ∃ log2, copy_secret_data src st1 log1 = .ok (st1, log2) := by
  have hndf := fullPatch_nodup data hnd
  unfold copy_secret_data at h1 ⊢
  rcases hm : getDict src "metadata" with e | meta
  · rw [hm] at h1
    exact Except.noConfusion (show (Except.error e : Except PyErr (Store × Log))
      = .ok (st1, log1) from h1)
  · rw [hm] at h1
    have h1' : Except.bind (find_destinations meta)
        (fun refs => sync_dests src refs st log) = .ok (st1, log1) := h1
    rcases hr : find_destinations meta with e | refs
    · rw [hr] at h1'
      exact Except.noConfusion
        (show (Except.error e : Except PyErr (Store × Log))
          = .ok (st1, log1) from h1')
    · rw [hr] at h1'
      have hsy : sync_dests src refs st log = .ok (st1, log1) := h1'
      obtain ⟨lg, h2⟩ := sync_dests_stable src data hd refs st1 log1
        (sync_dests_post_idem src data hd hndf refs st log st1 log1 hsy)
      refine ⟨lg, ?_⟩
      show Except.bind (find_destinations meta)
        (fun refs => sync_dests src refs st1 log1) = .ok (st1, lg)
      rw [hr]
      exact h2

theorem claim_C4_witness :
    getDict [("metadata", Jv.dict [("namespace", Jv.str "ns"),
        ("annotations", Jv.dict [(ANN_SYNC_TO, Jv.str "missing")])]),
      ("data", Jv.dict [("foo", Jv.str "x")])] "data"
      = .ok [("foo", Jv.str "x")] ∧
    NodupRec (Jv.dict [("foo", Jv.str "x")]) ∧
    copy_secret_data [("metadata", Jv.dict [("namespace", Jv.str "ns"),
        ("annotations", Jv.dict [(ANN_SYNC_TO, Jv.str "missing")])]),
      ("data", Jv.dict [("foo", Jv.str "x")])] [] []
      = .ok ([], [.warnNotFound ⟨"ns", "missing"⟩,
          .infoSynced (stubObj ⟨"ns", "missing"⟩)]) ∧
    ∃ log2, copy_secret_data [("metadata", Jv.dict [("namespace", Jv.str "ns"),
        ("annotations", Jv.dict [(ANN_SYNC_TO, Jv.str "missing")])]),
      ("data", Jv.dict [("foo", Jv.str "x")])] []
        [.warnNotFound ⟨"ns", "missing"⟩,
          .infoSynced (stubObj ⟨"ns", "missing"⟩)]
      = .ok ([], log2) := by
  have hnd : NodupRec (Jv.dict [("foo", Jv.str "x")]) := by
    refine NodupRec.dict _ (by simp) ?_
    intro kv hkv
    simp at hkv
    rw [hkv]
    exact NodupRec.str _
  exact ⟨rfl, hnd, rfl,
    claim_C4 [("metadata", Jv.dict [("namespace", Jv.str "ns"),
        ("annotations", Jv.dict [(ANN_SYNC_TO, Jv.str "missing")])]),
      ("data", Jv.dict [("foo", Jv.str "x")])] [("foo", Jv.str "x")]
      [] [] [] [.warnNotFound ⟨"ns", "missing"⟩,
        .infoSynced (stubObj ⟨"ns", "missing"⟩)] rfl hnd rfl⟩
